import Mathlib

/-!
Formal model of the core logic of `footballscoutanalysis.py`, the single
source file of the football scouting dashboard, together with theorems
checking the specification's claims about it.

Modelling conventions (a shallow embedding):
* A scraped HTML table (`RawTable`) carries its scraped header (`columns`)
  and its rows.  A cell of the `R` column may be absent (pandas `NaN`),
  modelled as `Option String`; the remaining claim-relevant cells are the
  plain values the claims talk about.
* pandas numeric values are modelled as `Int` (the site's ratings and ages
  are integers); a float `NaN` is `Option.none`.
* Library calls (`pd.to_numeric`, `drop_duplicates`, `to_csv`,
  `sort_values`, `re.search`) are modelled by their documented semantics;
  `sort_values` with the default unstable `quicksort` kind is modelled as a
  relation (any rating-descending permutation), and `re.search` is modelled
  on the fragment of patterns the theorems exercise (literal characters and
  the `.` wildcard).
-/

/-- The four positional categories of the dashboard (`counts` keys in
`table_majority_category`, stored in the `Category` column). -/
inductive Category where
  | Goalkeeper
  | Defender
  | Midfielder
  | Forward
deriving DecidableEq

/-- The display name of a category, as stored in the dataframe column. -/
def categoryName : Category → String
  | .Goalkeeper => "Goalkeeper"
  | .Defender => "Defender"
  | .Midfielder => "Midfielder"
  | .Forward => "Forward"

/-- The fixed priority order `order = ["Goalkeeper", "Defender", "Midfielder",
"Forward"]` of `table_majority_category`. -/
def catOrder : List Category :=
  [Category.Goalkeeper, Category.Defender, Category.Midfielder, Category.Forward]

/-- The index of a category in `catOrder` (`order.index(k)` in the source). -/
def orderIndex : Category → Nat
  | .Goalkeeper => 0
  | .Defender => 1
  | .Midfielder => 2
  | .Forward => 3

/-- A row of a scraped table.  `R` is the raw rating cell, `none` when the
cell is absent (`NaN`), which is what `dropna(subset=["R"])` tests. -/
structure RawRow where
  R : Option String
  Name : String
  Age : Int
  Pos : String
  Club : String
deriving DecidableEq

/-- A scraped table: its header as scraped (`columns`) and its rows. -/
structure RawTable where
  columns : List String
  rows : List RawRow
deriving DecidableEq

/-- One record of the merged dataset (one row of the combined dataframe,
whose columns are Rating, Name, Age, Pos, Club, Category). -/
structure PlayerRecord where
  Rating : Option Int
  Name : String
  Age : Int
  Pos : String
  Club : String
  Category : Category
deriving DecidableEq

/-- The column names required by the table filter (`needed` in the source). -/
def needed : List String := ["R", "Name", "Age", "Pos", "Club"]

/-- `is_wonderkids_table`: the required columns are a subset of the table's
columns and the table has at least one row. -/
def is_wonderkids_table (t : RawTable) : Bool :=
  needed.all (fun c => decide (c ∈ t.columns)) && decide (0 < t.rows.length)

/-- Python's per-character upper-casing of a string (`str.upper`, ASCII). -/
def pyUpper (s : String) : String :=
  String.mk (s.data.map Char.toUpper)

/-- Python's per-character lower-casing of a string (`str.lower`, ASCII). -/
def strLower (s : String) : String :=
  String.mk (s.data.map Char.toLower)

/-- The substitution `re.sub(r"[()/,]", " ", s)`: the four punctuation
characters become a space, everything else is unchanged. -/
def punctToSpace (c : Char) : Char :=
  if c = '(' ∨ c = ')' ∨ c = '/' ∨ c = ',' then ' ' else c

/-- Python's `s.split()` (no separator): the maximal whitespace-free runs of
the string, with no empty pieces.  `acc` holds the current run, reversed. -/
def wsSplitAux : List Char → List Char → List (List Char)
  | [], acc => if acc = [] then [] else [acc.reverse]
  | c :: cs, acc =>
    if c.isWhitespace then
      (if acc = [] then wsSplitAux cs [] else acc.reverse :: wsSplitAux cs [])
    else wsSplitAux cs (c :: acc)

/-- Python's `s.split()` on a list of characters. -/
def wsSplit (cs : List Char) : List (List Char) :=
  wsSplitAux cs []

/-- `tokenise_pos`: upper-case, replace `(`, `)`, `/`, `,` by spaces, split
on whitespace, and return the set of tokens. -/
def tokenise_pos (s : String) : Finset String :=
  ((wsSplit ((pyUpper s).data.map punctToSpace)).map String.mk).toFinset

/-- The tokens whose presence increments a category's counter in
`table_majority_category` (`GK`; `D`, `WB`, `FB`; `DM`, `M`, `AM`, `W`;
`ST`, `CF`, `FW`). -/
def catTokens : Category → List String
  | .Goalkeeper => ["GK"]
  | .Defender => ["D", "WB", "FB"]
  | .Midfielder => ["DM", "M", "AM", "W"]
  | .Forward => ["ST", "CF", "FW"]

/-- One row's (non-exclusive) hit test for one category: the row's token set
meets the category's token set. -/
def rowHits (cat : Category) (p : String) : Bool :=
  (catTokens cat).any (fun tk => decide (tk ∈ tokenise_pos p))

/-- The counter accumulated for one category over the `Pos` column. -/
def categoryCounts (poss : List String) (cat : Category) : Nat :=
  poss.countP (rowHits cat)

/-- The comparison of Python's `max(order, key=lambda k: (counts[k],
-order.index(k)))`: candidate `a` beats `b` when its key tuple is strictly
greater, i.e. a larger count, or an equal count and a smaller index
(`-order.index` is larger exactly when the index is smaller). -/
def keyGtB (c : Category → Nat) (a b : Category) : Bool :=
  decide (c b < c a ∨ (c a = c b ∧ orderIndex a < orderIndex b))

/-- Python's `max(order, key=...)`: scan the list keeping the first element
whose key no later element strictly exceeds. -/
def pyMaxOrder (c : Category → Nat) : Category :=
  match catOrder with
  | [] => Category.Goalkeeper
  | h :: t => t.foldl (fun best k => if keyGtB c k best then k else best) h

/-- `table_majority_category`, as a function of the table's `Pos` column. -/
def table_majority_category (poss : List String) : Category :=
  pyMaxOrder (categoryCounts poss)

/-- A decimal-digit character. -/
def digitChar (d : Nat) : Char :=
  match d with
  | 0 => '0' | 1 => '1' | 2 => '2' | 3 => '3' | 4 => '4'
  | 5 => '5' | 6 => '6' | 7 => '7' | 8 => '8' | _ => '9'

/-- The numeric value of a decimal-digit character, if it is one. -/
def charDigit? (c : Char) : Option Nat :=
  if c = '0' then some 0 else if c = '1' then some 1 else
  if c = '2' then some 2 else if c = '3' then some 3 else
  if c = '4' then some 4 else if c = '5' then some 5 else
  if c = '6' then some 6 else if c = '7' then some 7 else
  if c = '8' then some 8 else if c = '9' then some 9 else none

/-- Little-endian decimal digits with an explicit fuel bound, so that the
function is structurally recursive and evaluates inside the kernel. -/
def natDigitsAux : Nat → Nat → List Nat
  | 0, _ => []
  | _ + 1, 0 => []
  | fuel + 1, n + 1 => ((n + 1) % 10) :: natDigitsAux fuel ((n + 1) / 10)

/-- Little-endian decimal digits of a natural number. -/
def natDigits (n : Nat) : List Nat :=
  natDigitsAux n n

/-- Decimal rendering of a natural number. -/
def natStr (n : Nat) : String :=
  if n = 0 then "0" else String.mk (((natDigits n).map digitChar).reverse)

/-- Decimal rendering of an integer. -/
def intStr (i : Int) : String :=
  if i < 0 then "-" ++ natStr i.natAbs else natStr i.natAbs

/-- The digit values of a character list, or `none` if some character is not
a decimal digit. -/
def digitsOf? : List Char → Option (List Nat)
  | [] => some []
  | c :: cs =>
    match charDigit? c, digitsOf? cs with
    | some d, some ds => some (d :: ds)
    | _, _ => none

/-- Parse an all-digit character list as a natural number. -/
def parseNat? (cs : List Char) : Option Nat :=
  (digitsOf? cs).map (fun ds => Nat.ofDigits 10 ds.reverse)

/-- Parse a decimal integer (an optional leading minus and digits). -/
def parseInt? (s : String) : Option Int :=
  match s.data with
  | [] => none
  | '-' :: rest => (parseNat? rest).map (fun n => -(n : Int))
  | cs => (parseNat? cs).map (fun n => (n : Int))

/-- `pd.to_numeric(..., errors="coerce")` on one rating cell: an integer, or
the missing sentinel (`NaN`) when the cell does not parse. -/
def to_numeric (s : String) : Option Int :=
  parseInt? s

/-- `dropna(subset=["R"])`: keep the rows whose original `R` cell is
present. -/
def dropnaR (rows : List RawRow) : List RawRow :=
  rows.filter (fun r => r.R.isSome)

/-- The table-level category label: `table_majority_category` applied to the
table after the `R`-dropna (the source calls it on the pruned `t`). -/
def tableCategory (t : RawTable) : Category :=
  table_majority_category ((dropnaR t.rows).map (fun r => r.Pos))

/-- Turn one kept raw row into a dataset record: rename `R` to `Rating`,
coerce it numerically, and attach the table's category label. -/
def toRecord (cat : Category) (r : RawRow) : PlayerRecord :=
  { Rating := r.R.bind to_numeric
    Name := r.Name
    Age := r.Age
    Pos := r.Pos
    Club := r.Club
    Category := cat }

/-- The per-table body of the loading loop: prune to the useful columns,
drop rows with an absent `R`, coerce ratings, and label the table. -/
def prepareTable (t : RawTable) : List PlayerRecord :=
  (dropnaR t.rows).map (toRecord (tableCategory t))

/-- The deduplication identity tuple `(Name, Club, Pos)`. -/
def dKey (r : PlayerRecord) : String × String × String :=
  (r.Name, r.Club, r.Pos)

/-- Worker of `drop_duplicates`: keep a row when its key was not seen yet. -/
def ddAux (seen : List (String × String × String)) :
    List PlayerRecord → List PlayerRecord
  | [] => []
  | r :: rs =>
    if dKey r ∈ seen then ddAux seen rs else r :: ddAux (dKey r :: seen) rs

/-- `drop_duplicates(subset=["Name", "Club", "Pos"])` with
`keep="first"` (the pandas default). -/
def drop_duplicates (l : List PlayerRecord) : List PlayerRecord :=
  ddAux [] l

/-- `pd.concat(dfs, ignore_index=True).drop_duplicates(...)` on the prepared
tables. -/
def mergeTables (ts : List (List PlayerRecord)) : List PlayerRecord :=
  drop_duplicates ts.flatten

/-- The whole loading pipeline: keep the tables passing the filter, prepare
each, concatenate, and deduplicate. -/
def buildDataset (ts : List RawTable) : List PlayerRecord :=
  mergeTables ((ts.filter is_wonderkids_table).map prepareTable)

/-- The sidebar filter configuration.  `name_substring` models the value of
`search_name`, i.e. the text input after the `.strip().lower()` the source
applies when reading the widget. -/
structure FilterConfig where
  age_min : Int
  age_max : Int
  rating_min : Int
  clubs : List String
  name_substring : String
deriving DecidableEq

/-- The pandas comparison `Rating >= rating_min` on one cell: `NaN` compares
false. -/
def ratingGE (r : Option Int) (m : Int) : Bool :=
  match r with
  | none => false
  | some v => decide (m ≤ v)

/-- Does the pattern match at the very start of the string?  Models Python
`re` matching for patterns made of literal characters and the `.` wildcard
(the fragment the theorems exercise). -/
def reMatchHere : List Char → List Char → Bool
  | [], _ => true
  | _ :: _, [] => false
  | p :: ps, c :: cs => (p = '.' || p = c) && reMatchHere ps cs

/-- `re.search`: does the pattern match at some position of the string? -/
def reSearchAux (ps : List Char) : List Char → Bool
  | [] => reMatchHere ps []
  | c :: cs => reMatchHere ps (c :: cs) || reSearchAux ps cs

/-- `re.search(pat, s)` as used by `Series.str.contains(pat)`. -/
def reSearch (pat s : String) : Bool :=
  reSearchAux pat.data s.data

/-- Does the pattern occur at the start of the string (literal matching)? -/
def startsList : List Char → List Char → Bool
  | [], _ => true
  | _ :: _, [] => false
  | p :: ps, c :: cs => p = c && startsList ps cs

/-- Does the pattern occur somewhere in the string (literal matching)? -/
def subListB (p : List Char) : List Char → Bool
  | [] => startsList p []
  | c :: cs => startsList p (c :: cs) || subListB p cs

/-- Literal (non-regex) substring test on strings. -/
def subStrB (p s : String) : Bool :=
  subListB p.data s.data

/-- The filter chain of the sidebar (source lines 87-93): age bounds, then
the rating bound, then the club multi-select when non-empty, then the name
search when non-empty. -/
def applyFilters (ds : List PlayerRecord) (cfg : FilterConfig) :
    List PlayerRecord :=
  let f1 := ds.filter (fun r =>
    decide (cfg.age_min ≤ r.Age) && decide (r.Age ≤ cfg.age_max))
  let f2 := f1.filter (fun r => ratingGE r.Rating cfg.rating_min)
  let f3 := if cfg.clubs.isEmpty then f2
    else f2.filter (fun r => decide (r.Club ∈ cfg.clubs))
  if cfg.name_substring.isEmpty then f3
  else f3.filter (fun r => reSearch cfg.name_substring (strLower r.Name))

/-- Rating comparison of the descending sort: `a` may come before `b` when
`a`'s rating is at least `b`'s, a missing rating sorting last
(`na_position="last"`). -/
def rGEb (a b : Option Int) : Bool :=
  match a, b with
  | _, none => true
  | none, some _ => false
  | some i, some j => decide (j ≤ i)

/-- The list is ordered by descending rating. -/
def sortedDescRating (l : List PlayerRecord) : Prop :=
  l.Pairwise (fun a b => rGEb a.Rating b.Rating = true)

/-- The contract of `sort_values("Rating", ascending=False)` with the
default `kind="quicksort"`: the output is some rating-descending permutation
of the input; the relative order of equal ratings is not specified. -/
def sort_values_desc (l out : List PlayerRecord) : Prop :=
  l.Perm out ∧ sortedDescRating out

/-- The per-category slice computed by `render_tab`: filter the current view
to the category, sort by rating descending, and take the first 100 rows. -/
def categorySlice (cat : Category) (fv res : List PlayerRecord) : Prop :=
  ∃ s, sort_values_desc (fv.filter (fun r => decide (r.Category = cat))) s ∧
    res = s.take 100

/-- The header of the exported dataframe: the five pruned columns followed
by the `Category` column the loading loop appends. -/
def exportColumns : List String :=
  ["Rating", "Name", "Age", "Pos", "Club", "Category"]

/-- The rating cell as written by `to_csv`: `NaN` becomes the empty cell. -/
def ratingCell (r : Option Int) : String :=
  match r with
  | none => ""
  | some i => intStr i

/-- The cells of one exported row, in column order. -/
def recordCells (r : PlayerRecord) : List String :=
  [ratingCell r.Rating, r.Name, intStr r.Age, r.Pos, r.Club,
    categoryName r.Category]

/-- Does a CSV field need quoting (pandas `QUOTE_MINIMAL`)? -/
def needsQuote (s : String) : Bool :=
  s.data.any (fun c => c = ',' || c = '"' || c = '\n' || c = '\r')

/-- Double every quote character of a quoted field's body. -/
def escapeQ (cs : List Char) : List Char :=
  cs.flatMap (fun c => if c = '"' then ['"', '"'] else [c])

/-- The characters of one written CSV field, minimally quoted. -/
def fieldChars (f : String) : List Char :=
  if needsQuote f then '"' :: (escapeQ f.data ++ ['"']) else f.data

/-- The characters of one written CSV line: comma-separated fields and a
terminating newline. -/
def lineChars : List String → List Char
  | [] => ['\n']
  | [f] => fieldChars f ++ ['\n']
  | f :: fs => fieldChars f ++ ',' :: lineChars fs

/-- `filtered.to_csv(index=False)`: the header line followed by one line per
record. -/
def to_csv (rows : List PlayerRecord) : String :=
  String.mk (((exportColumns :: rows.map recordCells).map lineChars).flatten)

/-- `filtered.to_excel(index=False)`, with the worksheet abstracted to its
header row and its cell rows. -/
def to_excel (rows : List PlayerRecord) : List String × List (List String) :=
  (exportColumns, rows.map recordCells)

/-- Mode of the CSV reading automaton: outside quotes, inside a quoted
field, or just after a quote inside a quoted field. -/
inductive CsvMode where
  | plain
  | quoted
  | qend
deriving DecidableEq

/-- State of the CSV reading automaton: finished records, finished fields of
the current record, characters of the current field, and the mode. -/
structure CsvState where
  recs : List (List String)
  cur : List String
  fld : List Char
  mode : CsvMode
deriving DecidableEq

/-- One step of the CSV reading automaton. -/
def csvStep (st : CsvState) (c : Char) : CsvState :=
  match st.mode with
  | .plain =>
    if c = '"' ∧ st.fld = [] then { st with mode := .quoted }
    else if c = ',' then
      { st with cur := st.cur ++ [String.mk st.fld], fld := [] }
    else if c = '\n' then
      { recs := st.recs ++ [st.cur ++ [String.mk st.fld]], cur := [],
        fld := [], mode := CsvMode.plain }
    else { st with fld := st.fld ++ [c] }
  | .quoted =>
    if c = '"' then { st with mode := .qend }
    else { st with fld := st.fld ++ [c] }
  | .qend =>
    if c = '"' then { st with fld := st.fld ++ ['"'], mode := .quoted }
    else if c = ',' then
      { st with cur := st.cur ++ [String.mk st.fld], fld := [],
                mode := CsvMode.plain }
    else if c = '\n' then
      { recs := st.recs ++ [st.cur ++ [String.mk st.fld]], cur := [],
        fld := [], mode := .plain }
    else { st with fld := st.fld ++ [c], mode := .plain }

/-- Initial state of the CSV reading automaton. -/
def csvInit : CsvState :=
  { recs := [], cur := [], fld := [], mode := .plain }

/-- Final flush of the CSV reading automaton: a pending partial record is
emitted; a clean end state is not. -/
def csvFinish (st : CsvState) : List (List String) :=
  if st.mode = CsvMode.plain ∧ st.cur = [] ∧ st.fld = [] then st.recs
  else st.recs ++ [st.cur ++ [String.mk st.fld]]

/-- Re-parsing an exported CSV text into its records (the pandas
`read_csv` semantics on the dialect `to_csv` writes). -/
def parseCSV (s : String) : List (List String) :=
  csvFinish (s.data.foldl csvStep csvInit)

/-- Decode one re-parsed CSV record back into the claim's
`(Rating, Name, Age, Pos, Club)` tuple; the trailing category cell is
ignored and a malformed age fails. -/
def decodeRow (cells : List String) :
    Option (Option Int × String × Int × String × String) :=
  match cells with
  | [ra, na, ag, po, cl, _] =>
    match parseInt? ag with
    | some a => some ((if ra = "" then none else parseInt? ra), na, a, po, cl)
    | none => none
  | _ => none

/-- The claim's projection of a record to its first five columns. -/
def tupleOf (r : PlayerRecord) : Option Int × String × Int × String × String :=
  (r.Rating, r.Name, r.Age, r.Pos, r.Club)

/-- Spec-side formulation of the tokenizer split: cut the normalized text at
every whitespace character and discard the empty pieces ("whitespace-
collapsed splitting").  Compared with the source's `wsSplit` in C8. -/
def splitAtWS : List Char → List (List Char)
  | [] => [[]]
  | c :: cs =>
    if c.isWhitespace then [] :: splitAtWS cs
    else
      match splitAtWS cs with
      | [] => [[c]]
      | t :: ts => (c :: t) :: ts

/-- Spec-side tokenizer, following the words of the Position Classifier
contract: upper-case, replace the four punctuation characters by
whitespace, split with collapsing, and collect the token set. -/
def specTokenise (s : String) : Finset String :=
  (((splitAtWS ((pyUpper s).data.map punctToSpace)).filter
    (fun t => t ≠ [])).map String.mk).toFinset

/-- Spec-side hit predicate of the Category Assigner: the row's token set
meets the category's token set. -/
def specHit (cat : Category) (p : String) : Prop :=
  ∃ tk ∈ catTokens cat, tk ∈ tokenise_pos p

instance (cat : Category) (p : String) : Decidable (specHit cat p) := by
  unfold specHit; infer_instance

/-- Spec-side counter: the number of rows hitting the category. -/
def specCount (poss : List String) (cat : Category) : Nat :=
  (poss.filter (fun p => decide (specHit cat p))).length

/-- Spec-side selection rule: the category with the highest count, equal
counts resolved to the earliest category of the fixed order. -/
def specPickMax (c : Category → Nat) : Category :=
  let m := max (max (c Category.Goalkeeper) (c Category.Defender))
    (max (c Category.Midfielder) (c Category.Forward))
  if c Category.Goalkeeper = m then Category.Goalkeeper
  else if c Category.Defender = m then Category.Defender
  else if c Category.Midfielder = m then Category.Midfielder
  else Category.Forward

/-- Spec-side Category Assigner. -/
def specCategory (poss : List String) : Category :=
  specPickMax (specCount poss)

/-- The record predicate claim C5 states for the filter layer: inclusive age
bounds, inclusive rating bound, club membership when the club set is
non-empty, and case-insensitive literal substring containment on the name
when the search text is non-empty. -/
def claimMatches (cfg : FilterConfig) (r : PlayerRecord) : Bool :=
  decide (cfg.age_min ≤ r.Age) && decide (r.Age ≤ cfg.age_max) &&
  ratingGE r.Rating cfg.rating_min &&
  (cfg.clubs.isEmpty || decide (r.Club ∈ cfg.clubs)) &&
  (cfg.name_substring.isEmpty ||
    subStrB (strLower cfg.name_substring) (strLower r.Name))

/-- The metacharacters of Python regular expressions; a pattern free of them
is matched literally by `re.search`. -/
def regexMeta : List Char :=
  ['.', '^', '$', '*', '+', '?', '\x7b', '\x7d', '[', ']', '\\', '|',
    '(', ')']

/-- Stable descending insertion: the new record goes after every record of
rating at least its own, so equal ratings keep their existing order. -/
def insertDesc (r : PlayerRecord) : List PlayerRecord → List PlayerRecord
  | [] => [r]
  | x :: xs =>
    if rGEb r.Rating x.Rating then r :: x :: xs else x :: insertDesc r xs

/-- Stable descending sort by rating (insertion sort). -/
def stableSortDesc (l : List PlayerRecord) : List PlayerRecord :=
  l.foldr insertDesc []

/-- The slice claim C3 states: category filter, STABLE descending sort, then
the first 100 rows. -/
def claimSlice (cat : Category) (fv : List PlayerRecord) : List PlayerRecord :=
  (stableSortDesc (fv.filter (fun r => decide (r.Category = cat)))).take 100

/-- The five columns claim C2 states for both exports. -/
def claimedColumns : List String := ["Rating", "Name", "Age", "Pos", "Club"]

/-- A goalkeeper record used by the concrete instances of C3. -/
def pA : PlayerRecord :=
  { Rating := some 5, Name := "A", Age := 17, Pos := "GK", Club := "X",
    Category := Category.Goalkeeper }

/-- A second goalkeeper record with the same rating as `pA`. -/
def pB : PlayerRecord :=
  { Rating := some 5, Name := "B", Age := 18, Pos := "GK", Club := "Y",
    Category := Category.Goalkeeper }

/-- Two records sharing the `(Name, Club, Pos)` identity tuple, used by the
concrete instance of C6. -/
def pC : PlayerRecord :=
  { Rating := some 9, Name := "N", Age := 16, Pos := "ST", Club := "C",
    Category := Category.Forward }

/-- The later duplicate of `pC` (same identity tuple, other rating). -/
def pD : PlayerRecord :=
  { Rating := some 7, Name := "N", Age := 16, Pos := "ST", Club := "C",
    Category := Category.Forward }

/-- A table whose label changes when its `R`-missing rows are counted: the
kept row votes Defender, the two dropped rows vote Forward (C10). -/
def tQ : RawTable :=
  { columns := ["R", "Name", "Age", "Pos", "Club"]
    rows :=
      [ { R := some "50", Name := "a", Age := 15, Pos := "D", Club := "c" },
        { R := none, Name := "b", Age := 15, Pos := "ST", Club := "c" },
        { R := none, Name := "d", Age := 15, Pos := "ST", Club := "c" } ] }

/-- A one-row wonderkids table used by the witnesses of C4 and C7. -/
def tW : RawTable :=
  { columns := ["R", "Name", "Age", "Pos", "Club"]
    rows := [{ R := some "77", Name := "w", Age := 16, Pos := "GK",
               Club := "k" }] }

/-- A filter configuration whose search text is the regex wildcard `.`,
used by the concrete instance of C5. -/
def cfgDot : FilterConfig :=
  { age_min := 0, age_max := 100, rating_min := 0, clubs := [],
    name_substring := "." }

/-- A metacharacter-free filter configuration used by the witness of C5. -/
def cfgLit : FilterConfig :=
  { age_min := 16, age_max := 18, rating_min := 4, clubs := ["X"],
    name_substring := "a" }

/-- One row hits a category exactly when the spec's hit predicate holds. -/
theorem rowHits_iff (cat : Category) (p : String) :
    rowHits cat p = true ↔ specHit cat p := by
  simp [rowHits, specHit, List.any_eq_true]

/-- The source's counter and the spec's counter agree. -/
theorem categoryCounts_eq_specCount (poss : List String) (cat : Category) :
    categoryCounts poss cat = specCount poss cat := by
  unfold categoryCounts specCount
  rw [List.countP_eq_length_filter]
  congr 1
  apply List.filter_congr
  intro p _
  by_cases h : specHit cat p
  · simp [h, (rowHits_iff cat p).mpr h]
  · simp only [decide_eq_false h]
    by_contra hb
    simp only [Bool.not_eq_false] at hb
    exact h ((rowHits_iff cat p).mp hb)

/-- The Python `max` scan over the fixed order picks the earliest category
of maximal count. -/
theorem pyMaxOrder_eq_specPickMax (c : Category → Nat) :
    pyMaxOrder c = specPickMax c := by
  have h0 : orderIndex Category.Goalkeeper = 0 := rfl
  have h1 : orderIndex Category.Defender = 1 := rfl
  have h2 : orderIndex Category.Midfielder = 2 := rfl
  have h3 : orderIndex Category.Forward = 3 := rfl
  simp only [pyMaxOrder, catOrder, List.foldl, specPickMax, keyGtB,
    h0, h1, h2, h3, decide_eq_true_eq]
  split_ifs <;> first | rfl | omega

/-- C1: for tables passing the filter, `table_majority_category` returns the
category with the highest of the four non-exclusive hit counters, resolving
equal counts to the earliest category of the fixed order, and returns
Goalkeeper when all four counters are zero (in particular on an empty
table). -/
theorem C1_category_assigner :
    (∀ poss : List String,
      table_majority_category poss = specCategory poss) ∧
    table_majority_category [] = Category.Goalkeeper ∧
    (∀ poss : List String, (∀ cat, categoryCounts poss cat = 0) →
      table_majority_category poss = Category.Goalkeeper) := by
  refine ⟨?_, by decide, ?_⟩
  · intro poss
    unfold table_majority_category specCategory
    rw [pyMaxOrder_eq_specPickMax]
    congr 1
    funext cat
    exact categoryCounts_eq_specCount poss cat
  · intro poss h
    simp [table_majority_category, pyMaxOrder, catOrder, keyGtB, orderIndex, h]

/-- Concrete instance of C1: a table none of whose rows matches any token is
labelled Goalkeeper. -/
theorem C1_category_assigner_witness :
    table_majority_category ["X"] = Category.Goalkeeper :=
  C1_category_assigner.2.2 ["X"] (fun cat => by cases cat <;> decide)

/-- The deduplication worker returns a sublist of its input. -/
theorem ddAux_sublist (l : List PlayerRecord) :
    ∀ seen, (ddAux seen l).Sublist l := by
  induction l with
  | nil => intro seen; simp [ddAux]
  | cons x xs ih =>
    intro seen
    unfold ddAux
    split_ifs with h
    · exact (ih seen).cons x
    · exact (ih (dKey x :: seen)).cons₂ x

/-- Keys of kept records were not previously seen. -/
theorem ddAux_key_not_seen (l : List PlayerRecord) :
    ∀ seen r, r ∈ ddAux seen l → dKey r ∉ seen := by
  induction l with
  | nil => intro seen r h; simp [ddAux] at h
  | cons x xs ih =>
    intro seen r h
    unfold ddAux at h
    split_ifs at h with hx
    · exact ih seen r h
    · rcases List.mem_cons.mp h with rfl | h
      · exact hx
      · intro hs
        exact ih (dKey x :: seen) r h (List.mem_cons_of_mem _ hs)

/-- Every kept record is the first record of the input with its key. -/
theorem ddAux_find (l : List PlayerRecord) :
    ∀ seen r, r ∈ ddAux seen l →
      l.find? (fun x => decide (dKey x = dKey r)) = some r := by
  induction l with
  | nil => intro seen r h; simp [ddAux] at h
  | cons x xs ih =>
    intro seen r h
    unfold ddAux at h
    split_ifs at h with hx
    · have hne : dKey x ≠ dKey r := by
        intro he
        exact ddAux_key_not_seen xs seen r h (he ▸ hx)
      rw [List.find?_cons_of_neg _ (by simpa using hne)]
      exact ih seen r h
    · rcases List.mem_cons.mp h with rfl | h
      · exact List.find?_cons_of_pos _ (by simp)
      · have hns := ddAux_key_not_seen xs (dKey x :: seen) r h
        have hne : dKey x ≠ dKey r := fun he =>
          hns (he ▸ List.mem_cons_self _ _)
        rw [List.find?_cons_of_neg _ (by simpa using hne)]
        exact ih (dKey x :: seen) r h

/-- The kept records have pairwise distinct keys. -/
theorem ddAux_keys_nodup (l : List PlayerRecord) :
    ∀ seen, ((ddAux seen l).map dKey).Nodup := by
  induction l with
  | nil => intro seen; simp [ddAux]
  | cons x xs ih =>
    intro seen
    unfold ddAux
    split_ifs with hx
    · exact ih seen
    · rw [List.map_cons, List.nodup_cons]
      refine ⟨?_, ih (dKey x :: seen)⟩
      intro hmem
      rw [List.mem_map] at hmem
      obtain ⟨r, hr, he⟩ := hmem
      exact ddAux_key_not_seen xs (dKey x :: seen) r hr
        (he ▸ List.mem_cons_self _ _)

/-- Every input key is either already seen or represented in the output. -/
theorem ddAux_cover (l : List PlayerRecord) :
    ∀ seen r, r ∈ l →
      dKey r ∈ seen ∨ ∃ rr, rr ∈ ddAux seen l ∧ dKey rr = dKey r := by
  induction l with
  | nil => intro seen r h; simp at h
  | cons x xs ih =>
    intro seen r h
    unfold ddAux
    rcases List.mem_cons.mp h with rfl | h
    · split_ifs with hx
      · exact Or.inl hx
      · exact Or.inr ⟨r, List.mem_cons_self _ _, rfl⟩
    · split_ifs with hx
      · exact ih seen r h
      · rcases ih (dKey x :: seen) r h with hs | ⟨rr, hrr, he⟩
        · rcases List.mem_cons.mp hs with he | hs
          · exact Or.inr ⟨x, List.mem_cons_self _ _, he.symm⟩
          · exact Or.inl hs
        · exact Or.inr ⟨rr, List.mem_cons_of_mem _ hrr, he⟩

/-- A list with pairwise distinct keys holds each key at most once. -/
theorem countP_key_le_one (k : String × String × String)
    (l : List PlayerRecord) (h : (l.map dKey).Nodup) :
    l.countP (fun r => decide (dKey r = k)) ≤ 1 := by
  induction l with
  | nil => simp
  | cons x xs ih =>
    rw [List.map_cons, List.nodup_cons] at h
    rw [List.countP_cons]
    by_cases hx : dKey x = k
    · have hz : xs.countP (fun r => decide (dKey r = k)) = 0 := by
        rw [List.countP_eq_zero]
        intro y hy
        simp only [decide_eq_true_eq]
        intro he
        exact h.1 (List.mem_map.mpr ⟨y, hy, by rw [he, hx]⟩)
      simp [hx, hz]
    · simp [hx, ih h.2]

/-- C6: the merger concatenates the labelled tables in order, keeps exactly
the first occurrence of every `(Name, Club, Pos)` key, and two tables
sharing a key contribute exactly one record for it. -/
theorem C6_merger (ts : List (List PlayerRecord)) :
    (mergeTables ts).Sublist ts.flatten ∧
    ((mergeTables ts).map dKey).Nodup ∧
    (∀ r, r ∈ mergeTables ts →
      ts.flatten.find? (fun x => decide (dKey x = dKey r)) = some r) ∧
    (∀ r, r ∈ ts.flatten →
      ∃ rr, rr ∈ mergeTables ts ∧ dKey rr = dKey r) ∧
    (∀ t1 t2 k, (∃ r1, r1 ∈ t1 ∧ dKey r1 = k) →
      (∃ r2, r2 ∈ t2 ∧ dKey r2 = k) →
      (mergeTables [t1, t2]).countP (fun r => decide (dKey r = k)) = 1) := by
  refine ⟨ddAux_sublist _ [], ddAux_keys_nodup _ [], ?_, ?_, ?_⟩
  · intro r h
    exact ddAux_find ts.flatten [] r h
  · intro r h
    rcases ddAux_cover ts.flatten [] r h with hs | hex
    · simp at hs
    · exact hex
  · intro t1 t2 k h1 _
    obtain ⟨r1, hr1, hk1⟩ := h1
    have hmem : r1 ∈ ([t1, t2] : List (List PlayerRecord)).flatten := by
      simp [hr1]
    have hcov := ddAux_cover ([t1, t2] : List (List PlayerRecord)).flatten []
      r1 hmem
    rcases hcov with hs | ⟨rr, hrr, he⟩
    · simp at hs
    · have hpos : 0 <
          (mergeTables [t1, t2]).countP (fun r => decide (dKey r = k)) := by
        rw [List.countP_pos_iff]
        exact ⟨rr, hrr, by simp [he, hk1]⟩
      have hle := countP_key_le_one k (mergeTables [t1, t2])
        (ddAux_keys_nodup _ [])
      omega

/-- Concrete instance of C6: merging two one-row tables that share the
identity tuple keeps exactly one record. -/
theorem C6_merger_witness :
    (mergeTables [[pC], [pD]]).countP
      (fun r => decide (dKey r = ("N", "C", "ST"))) = 1 :=
  (C6_merger [[pC], [pD]]).2.2.2.2 [pC] [pD] ("N", "C", "ST")
    ⟨pC, by decide⟩ ⟨pD, by decide⟩

/-- C7: the table filter accepts exactly the tables whose column set covers
the five needed columns and which have at least one row; rejected tables
contribute nothing to the merged dataset. -/
theorem C7_table_filter :
    (∀ t : RawTable, is_wonderkids_table t = true ↔
      ((∀ c, c ∈ needed → c ∈ t.columns) ∧ 0 < t.rows.length)) ∧
    (∀ (ts : List RawTable) (r : PlayerRecord), r ∈ buildDataset ts →
      ∃ t, t ∈ ts ∧ is_wonderkids_table t = true ∧ r ∈ prepareTable t) := by
  constructor
  · intro t
    simp [is_wonderkids_table, List.all_eq_true]
  · intro ts r h
    unfold buildDataset mergeTables drop_duplicates at h
    have hr := (ddAux_sublist _ []).subset h
    rw [List.mem_flatten] at hr
    obtain ⟨l, hl, hrl⟩ := hr
    rw [List.mem_map] at hl
    obtain ⟨t, ht, rfl⟩ := hl
    rw [List.mem_filter] at ht
    exact ⟨t, ht.1, ht.2, hrl⟩

/-- Concrete instance of C7: the one record of `buildDataset [tW]` comes
from the accepted table `tW`. -/
theorem C7_table_filter_witness : is_wonderkids_table tW = true := by
  obtain ⟨t, ht, hw, -⟩ := C7_table_filter.2 [tW]
    { Rating := some 77, Name := "w", Age := 16, Pos := "GK", Club := "k",
      Category := Category.Goalkeeper } (by decide)
  rw [List.mem_singleton] at ht
  exact ht ▸ hw

/-- Records surviving the filter chain satisfy the rating comparison. -/
theorem mem_applyFilters_rating (ds : List PlayerRecord) (cfg : FilterConfig)
    (rec : PlayerRecord) (h : rec ∈ applyFilters ds cfg) :
    ratingGE rec.Rating cfg.rating_min = true := by
  unfold applyFilters at h
  split_ifs at h <;>
    simp only [List.mem_filter] at h <;>
    tauto

/-- C10: the table label is computed only over the rows kept by the
`R`-dropna, and a table's label can therefore differ from the majority vote
over all of its scraped rows (witness `tQ`). -/
theorem C10_label_after_dropna :
    (∀ t : RawTable, tableCategory t =
      table_majority_category
        ((t.rows.filter (fun r => r.R.isSome)).map (fun r => r.Pos))) ∧
    (∃ t : RawTable, tableCategory t ≠
      table_majority_category (t.rows.map (fun r => r.Pos))) :=
  ⟨fun _ => rfl, ⟨tQ, by decide⟩⟩

/-- C4: a row is dropped in merge preparation exactly when its original `R`
cell is absent; a present but non-coercible rating is kept as the missing
sentinel; and no record with a missing rating survives the rating filter. -/
theorem C4_rating_errors :
    (∀ t : RawTable, prepareTable t =
      (t.rows.filter (fun r => r.R.isSome)).map (toRecord (tableCategory t))) ∧
    (∀ (t : RawTable) (r : RawRow) (s : String), r ∈ t.rows → r.R = some s →
      toRecord (tableCategory t) r ∈ prepareTable t ∧
      (to_numeric s = none → (toRecord (tableCategory t) r).Rating = none)) ∧
    (∀ (ds : List PlayerRecord) (cfg : FilterConfig) (rec : PlayerRecord),
      rec ∈ applyFilters ds cfg → rec.Rating ≠ none) := by
  refine ⟨fun _ => rfl, ?_, ?_⟩
  · intro t r s hr hs
    constructor
    · unfold prepareTable dropnaR
      exact List.mem_map_of_mem _
        (List.mem_filter.mpr ⟨hr, by simp [hs]⟩)
    · intro hnone
      simp [toRecord, hs, hnone]
  · intro ds cfg rec h hnone
    have := mem_applyFilters_rating ds cfg rec h
    rw [hnone] at this
    simp [ratingGE] at this

/-- Concrete instance of C4: the non-numeric rating cell `"x"` is kept with
the missing sentinel, and a record with a missing rating is filtered out. -/
theorem C4_rating_errors_witness :
    (toRecord
        (tableCategory { columns := needed,
                         rows := [{ R := some "x", Name := "n", Age := 15,
                                    Pos := "M", Club := "c" }] })
        { R := some "x", Name := "n", Age := 15, Pos := "M", Club := "c" }
      ∈ prepareTable
        { columns := needed,
          rows := [{ R := some "x", Name := "n", Age := 15, Pos := "M",
                     Club := "c" }] }) ∧
    pA.Rating ≠ none :=
  ⟨(C4_rating_errors.2.1 _ _ "x" (by decide) (by decide)).1,
    C4_rating_errors.2.2 [pA] cfgDot pA (by decide)⟩

/-- Prepending nothing to the head piece changes nothing. -/
theorem modifyHead_nil_append (l : List (List Char)) :
    l.modifyHead (fun t => [] ++ t) = l := by
  cases l <;> simp

/-- The cut-at-every-whitespace split always returns at least one piece. -/
theorem splitAtWS_ne_nil (cs : List Char) : splitAtWS cs ≠ [] := by
  cases cs with
  | nil => simp [splitAtWS]
  | cons c cs =>
    unfold splitAtWS
    split_ifs with h
    · simp
    · rcases hsp : splitAtWS cs with _ | ⟨t, ts⟩ <;> simp [hsp]

/-- The collapsing split equals the cut-at-every-whitespace split with the
pending run prepended to the first piece and empty pieces dropped. -/
theorem wsSplitAux_eq (cs : List Char) :
    ∀ acc, wsSplitAux cs acc =
      ((splitAtWS cs).modifyHead (fun t => acc.reverse ++ t)).filter
        (fun t => t ≠ []) := by
  induction cs with
  | nil =>
    intro acc
    by_cases h : acc = [] <;>
      simp [wsSplitAux, splitAtWS, h, List.reverse_eq_nil_iff]
  | cons c cs ih =>
    intro acc
    by_cases hw : c.isWhitespace
    · have hid : wsSplitAux cs [] = (splitAtWS cs).filter (fun t => t ≠ []) := by
        rw [ih []]
        simp only [List.reverse_nil, modifyHead_nil_append]
      by_cases h : acc = [] <;>
        simp [wsSplitAux, splitAtWS, hw, h, hid, List.reverse_eq_nil_iff]
    · obtain ⟨t, ts, hsp⟩ : ∃ t ts, splitAtWS cs = t :: ts := by
        rcases hs : splitAtWS cs with _ | ⟨t, ts⟩
        · exact absurd hs (splitAtWS_ne_nil cs)
        · exact ⟨t, ts, rfl⟩
      have hspc : splitAtWS (c :: cs) = (c :: t) :: ts := by
        rw [show splitAtWS (c :: cs) =
            (if c.isWhitespace then [] :: splitAtWS cs
             else
               match splitAtWS cs with
               | [] => [[c]]
               | u :: us => (c :: u) :: us) from rfl, if_neg hw, hsp]
      rw [wsSplitAux, if_neg hw, ih (c :: acc), hsp, hspc]
      simp [List.append_assoc]

/-- The source tokenizer agrees with the spec's formulation of the split. -/
theorem tokenise_pos_eq_spec (s : String) : tokenise_pos s = specTokenise s := by
  unfold tokenise_pos specTokenise wsSplit
  rw [wsSplitAux_eq]
  simp only [List.reverse_nil, modifyHead_nil_append]

/-- C8: the Position Classifier upper-cases, replaces the four punctuation
characters by whitespace, splits on collapsed whitespace into a token set;
it agrees with the spec's formulation on every input and on the spec's two
examples. -/
theorem C8_position_classifier :
    tokenise_pos "D (RLC), WB" = {"D", "RLC", "WB"} ∧
    tokenise_pos "gk" = {"GK"} ∧
    ∀ s : String, tokenise_pos s = specTokenise s :=
  ⟨by decide, by decide, tokenise_pos_eq_spec⟩

/-- C3 (amended): any per-category slice is at most 100 records long, is
ordered by descending rating, and contains only records of that category
taken from the filtered view.  The relative order of equal ratings is not
guaranteed (the sort relation leaves it open). -/
theorem C3_top_slice (cat : Category) (fv res : List PlayerRecord)
    (h : categorySlice cat fv res) :
    res.length ≤ 100 ∧ sortedDescRating res ∧
    ∀ r, r ∈ res → r ∈ fv ∧ r.Category = cat := by
  obtain ⟨s, ⟨hperm, hsort⟩, rfl⟩ := h
  refine ⟨?_, ?_, ?_⟩
  · simp
  · exact hsort.sublist (List.take_sublist 100 s)
  · intro r hr
    have hs : r ∈ s := (List.take_sublist 100 s).subset hr
    have hf : r ∈ fv.filter (fun r => decide (r.Category = cat)) :=
      hperm.mem_iff.mpr hs
    rw [List.mem_filter] at hf
    exact ⟨hf.1, by simpa using hf.2⟩

/-- Concrete instance of C3: the one-record slice of `[pA]`. -/
theorem C3_top_slice_witness :
    [pA].length ≤ 100 ∧ sortedDescRating [pA] ∧
    (pA ∈ [pA] ∧ pA.Category = Category.Goalkeeper) := by
  have h : categorySlice Category.Goalkeeper [pA] [pA] := by
    refine ⟨[pA], ⟨?_, ?_⟩, rfl⟩
    · have he : [pA].filter (fun r => decide (r.Category = Category.Goalkeeper))
          = [pA] := by decide
      rw [he]
    · simp [sortedDescRating]
  have hc := C3_top_slice Category.Goalkeeper [pA] [pA] h
  exact ⟨hc.1, hc.2.1, hc.2.2 pA (by decide)⟩

/-- Counterexample to C3 as stated: both orders of two equal-rated
goalkeepers are valid outputs of the unstable sort, so the slice need not
preserve the records' relative dataset order. -/
theorem C3_stability_cex :
    categorySlice Category.Goalkeeper [pA, pB] [pB, pA] ∧
    [pB, pA] ≠ claimSlice Category.Goalkeeper [pA, pB] := by
  constructor
  · refine ⟨[pB, pA], ⟨?_, ?_⟩, rfl⟩
    · have he : [pA, pB].filter
          (fun r => decide (r.Category = Category.Goalkeeper)) = [pA, pB] := by
        decide
      rw [he]
      exact List.Perm.swap pB pA []
    · simp only [sortedDescRating, List.pairwise_cons, List.mem_singleton,
        List.pairwise_singleton]
      refine ⟨fun b hb => by rw [hb]; decide, fun a ha => absurd ha ?_, ?_⟩
      · simp
      · exact List.Pairwise.nil
  · decide

/-- On dot-free patterns the regex head matcher is the literal one. -/
theorem reMatchHere_eq_startsList (p : List Char) (hp : ∀ c ∈ p, c ≠ '.') :
    ∀ s, reMatchHere p s = startsList p s := by
  induction p with
  | nil => intro s; rfl
  | cons a ps ih =>
    intro s
    cases s with
    | nil => rfl
    | cons c cs =>
      have ha : a ≠ '.' := hp a (List.mem_cons_self a ps)
      simp only [reMatchHere, startsList, decide_eq_false ha, Bool.false_or,
        ih (fun c hc => hp c (List.mem_cons_of_mem a hc)) cs]

/-- On dot-free patterns `re.search` is the literal substring test. -/
theorem reSearchAux_eq_subListB (p : List Char) (hp : ∀ c ∈ p, c ≠ '.') :
    ∀ s, reSearchAux p s = subListB p s := by
  intro s
  induction s with
  | nil => simp only [reSearchAux, subListB, reMatchHere_eq_startsList p hp]
  | cons c cs ih =>
    simp only [reSearchAux, subListB, reMatchHere_eq_startsList p hp, ih]

/-- String form of the literal-search agreement. -/
theorem reSearch_eq_subStrB (p s : String) (hp : ∀ c ∈ p.data, c ≠ '.') :
    reSearch p s = subStrB p s :=
  reSearchAux_eq_subListB p.data hp s.data

/-- C5 (amended): when the search text is free of regex metacharacters (the
code hands it to `re.search`, so it is a pattern, not a literal), the filter
chain returns exactly the records satisfying the claim's predicate:
inclusive age bounds, inclusive rating bound, club membership when clubs
are selected, and case-insensitive substring containment on the name. -/
theorem C5_filter_layer (ds : List PlayerRecord) (cfg : FilterConfig)
    (hmeta : ∀ c ∈ cfg.name_substring.data, c ∉ regexMeta)
    (hlow : strLower cfg.name_substring = cfg.name_substring) :
    applyFilters ds cfg = ds.filter (claimMatches cfg) := by
  have hdot : ∀ c ∈ cfg.name_substring.data, c ≠ '.' := by
    intro c hc he
    exact hmeta c hc (he ▸ (by simp [regexMeta]))
  have hname : ∀ r : PlayerRecord,
      reSearch cfg.name_substring (strLower r.Name) =
        subStrB (strLower cfg.name_substring) (strLower r.Name) := by
    intro r
    rw [hlow, reSearch_eq_subStrB _ _ hdot]
  rcases hn : cfg.name_substring.isEmpty <;> rcases hc : cfg.clubs.isEmpty
  all_goals
    simp only [applyFilters, hn, hc, Bool.false_eq_true, if_true, if_false,
      List.filter_filter]
  all_goals refine List.filter_congr (fun r _ => ?_)
  all_goals
    simp only [claimMatches, hn, hc, hname r, Bool.true_or, Bool.false_or,
      Bool.or_true, Bool.or_false]
  all_goals
    cases h1 : decide (cfg.age_min ≤ r.Age) <;>
      cases h2 : decide (r.Age ≤ cfg.age_max) <;>
        cases h3 : ratingGE r.Rating cfg.rating_min <;>
          simp [h1, h2, h3, Bool.and_comm, Bool.and_assoc, Bool.and_left_comm]

/-- Concrete instance of C5: a literal lowercase search text, a selected
club and age/rating bounds filter exactly as the claim's predicate says. -/
theorem C5_filter_layer_witness :
    applyFilters [pA, pB] cfgLit = [pA, pB].filter (claimMatches cfgLit) :=
  C5_filter_layer [pA, pB] cfgLit (by decide) (by decide)

/-- Counterexample to C5 as stated: with search text `.` the code includes
the record named `A` (the regex wildcard matches any character), while the
claimed case-insensitive substring test excludes it. -/
theorem C5_name_filter_cex :
    applyFilters [pA] cfgDot ≠ [pA].filter (claimMatches cfgDot) := by
  decide

/-- The characters of a made string are the given characters. -/
theorem data_mk (l : List Char) : (String.mk l).data = l := rfl

/-- The fuel-bounded digit function agrees with `Nat.digits` base 10. -/
theorem natDigitsAux_eq (fuel : Nat) :
    ∀ n, n ≤ fuel → natDigitsAux fuel n = Nat.digits 10 n := by
  induction fuel with
  | zero =>
    intro n hn
    interval_cases n
    simp [natDigitsAux]
  | succ f ih =>
    intro n hn
    cases n with
    | zero => simp [natDigitsAux]
    | succ m =>
      have hdiv : (m + 1) / 10 ≤ f := by
        have := Nat.div_lt_self (Nat.succ_pos m) (by norm_num : 1 < 10)
        omega
      show ((m + 1) % 10) :: natDigitsAux f ((m + 1) / 10) = _
      rw [ih _ hdiv, Nat.digits_def' (by norm_num : 1 < 10) (Nat.succ_pos m)]

/-- The digit list of `natStr` is the base-10 digit list. -/
theorem natDigits_eq (n : Nat) : natDigits n = Nat.digits 10 n :=
  natDigitsAux_eq n n le_rfl

/-- Reading a rendered digit gives the digit back. -/
theorem charDigit?_digitChar (d : Nat) (h : d < 10) :
    charDigit? (digitChar d) = some d := by
  interval_cases d <;> decide

/-- No rendered digit is the minus sign. -/
theorem digitChar_ne_minus (d : Nat) : digitChar d ≠ '-' := by
  unfold digitChar
  split <;> decide

/-- Reading a list of rendered digits gives the digits back. -/
theorem digitsOf?_map_digitChar (l : List Nat) (h : ∀ d ∈ l, d < 10) :
    digitsOf? (l.map digitChar) = some l := by
  induction l with
  | nil => rfl
  | cons d ds ih =>
    rw [List.map_cons]
    simp [digitsOf?, charDigit?_digitChar d (h d (by simp)),
      ih (fun x hx => h x (by simp [hx]))]

/-- Parsing the decimal rendering of a natural number gives it back. -/
theorem parseNat?_natStr (n : Nat) : parseNat? (natStr n).data = some n := by
  by_cases h : n = 0
  · subst h; decide
  · rw [natStr, if_neg h, data_mk]
    unfold parseNat?
    rw [show ((natDigits n).map digitChar).reverse =
        ((natDigits n).reverse).map digitChar from (List.map_reverse _ _).symm]
    rw [digitsOf?_map_digitChar _ (fun d hd => Nat.digits_lt_base
      (by norm_num) (by rw [← natDigits_eq]; exact List.mem_reverse.mp hd))]
    simp [List.reverse_reverse, natDigits_eq, Nat.ofDigits_digits]

/-- The rendering of a natural number starts with a digit, not a minus. -/
theorem natStr_head (n : Nat) :
    ∃ c cs, (natStr n).data = c :: cs ∧ c ≠ '-' := by
  by_cases h : n = 0
  · exact ⟨'0', [], by rw [h]; rfl, by decide⟩
  · rw [natStr, if_neg h, data_mk]
    rcases hrev : ((natDigits n).map digitChar).reverse with _ | ⟨c, cs⟩
    · exfalso
      have hmap : (natDigits n).map digitChar = [] := by
        have := congrArg List.reverse hrev
        simpa using this
      rw [List.map_eq_nil_iff] at hmap
      have hz : Nat.digits 10 n = [] := by rw [← natDigits_eq]; exact hmap
      exact Nat.digits_ne_nil_iff_ne_zero.mpr h hz
    · refine ⟨c, cs, rfl, ?_⟩
      have hc : c ∈ ((natDigits n).map digitChar).reverse := by
        rw [hrev]; exact List.mem_cons_self _ _
      rw [List.mem_reverse, List.mem_map] at hc
      obtain ⟨d, -, rfl⟩ := hc
      exact digitChar_ne_minus d

/-- Parsing the decimal rendering of a nonnegative value. -/
theorem parseInt?_natStr (n : Nat) :
    parseInt? (natStr n) = some ((n : Int)) := by
  obtain ⟨c, cs, hcs, hne⟩ := natStr_head n
  unfold parseInt?
  rw [hcs]
  split
  · rename_i heq
    exact absurd heq (by simp)
  · rename_i x rest heq
    injection heq with h1 _
    exact absurd h1 hne
  · rw [← hcs, parseNat?_natStr]
    rfl

/-- Parsing a minus sign followed by a string negates the parsed value. -/
theorem parseInt?_minus (s : String) :
    parseInt? ("-" ++ s) = (parseNat? s.data).map (fun n => -(n : Int)) := by
  rcases s with ⟨l⟩
  unfold parseInt?
  rw [show (("-" : String) ++ String.mk l).data = '-' :: l from rfl]
  split
  · rename_i heq
    exact absurd heq (by simp)
  · rename_i x rest heq
    injection heq with _ h2
    rw [← h2]
  · rename_i x h1 h2
    exact absurd (h2 l rfl) not_false

/-- Parsing the decimal rendering of an integer gives it back. -/
theorem parseInt?_intStr (i : Int) : parseInt? (intStr i) = some i := by
  by_cases hi : i < 0
  · rw [intStr, if_pos hi, parseInt?_minus, parseNat?_natStr]
    show some (-((i.natAbs : Nat) : Int)) = some i
    congr 1
    omega
  · rw [intStr, if_neg hi, parseInt?_natStr]
    congr 1
    omega

/-- The rendering of an integer is never the empty cell. -/
theorem intStr_ne_empty (i : Int) : intStr i ≠ "" := by
  intro he
  by_cases hi : i < 0
  · rw [intStr, if_pos hi] at he
    rcases hs : natStr i.natAbs with ⟨l⟩
    rw [hs] at he
    have hd : '-' :: l = [] := congrArg String.data he
    cases hd
  · rw [intStr, if_neg hi] at he
    obtain ⟨c, cs, hcs, -⟩ := natStr_head i.natAbs
    rw [he] at hcs
    have hd : ([] : List Char) = c :: cs := hcs
    cases hd

/-- Rebuilding a string from its characters gives the string back. -/
theorem mk_data (s : String) : String.mk s.data = s := by
  rcases s with ⟨l⟩
  rfl

/-- Characters free of comma, quote and newline are appended verbatim. -/
theorem foldl_csv_clean (cs : List Char)
    (h : ∀ c ∈ cs, c ≠ ',' ∧ c ≠ '"' ∧ c ≠ '\n') :
    ∀ recs cur fld,
      cs.foldl csvStep ⟨recs, cur, fld, CsvMode.plain⟩ =
        ⟨recs, cur, fld ++ cs, CsvMode.plain⟩ := by
  induction cs with
  | nil => intro recs cur fld; simp
  | cons c cs ih =>
    intro recs cur fld
    obtain ⟨h1, h2, h3⟩ := h c (List.mem_cons_self _ _)
    rw [List.foldl_cons]
    have hstep : csvStep ⟨recs, cur, fld, CsvMode.plain⟩ c =
        ⟨recs, cur, fld ++ [c], CsvMode.plain⟩ := by
      simp [csvStep, h1, h2, h3]
    rw [hstep, ih (fun x hx => h x (List.mem_cons_of_mem _ hx))]
    simp

/-- Inside quotes, the doubled-quote escaping folds back to the raw text. -/
theorem foldl_csv_escape (cs : List Char) :
    ∀ recs cur fld,
      (escapeQ cs).foldl csvStep ⟨recs, cur, fld, CsvMode.quoted⟩ =
        ⟨recs, cur, fld ++ cs, CsvMode.quoted⟩ := by
  induction cs with
  | nil => intro recs cur fld; simp [escapeQ]
  | cons c cs ih =>
    intro recs cur fld
    rw [show escapeQ (c :: cs) =
        (if c = '"' then ['"', '"'] else [c]) ++ escapeQ cs from rfl]
    by_cases hc : c = '"'
    · subst hc
      rw [if_pos rfl]
      have htwo : (['"', '"'] : List Char).foldl csvStep
          ⟨recs, cur, fld, CsvMode.quoted⟩ =
          ⟨recs, cur, fld ++ ['"'], CsvMode.quoted⟩ := by
        simp [csvStep]
      rw [List.foldl_append, htwo, ih]
      simp
    · rw [if_neg hc]
      have hstep : csvStep ⟨recs, cur, fld, CsvMode.quoted⟩ c =
          ⟨recs, cur, fld ++ [c], CsvMode.quoted⟩ := by
        simp [csvStep, hc]
      rw [List.singleton_append, List.foldl_cons, hstep, ih]
      simp

/-- A field that needs no quoting contains none of the three delimiters. -/
theorem needsQuote_false_clean (f : String) (hq : needsQuote f = false) :
    ∀ c ∈ f.data, c ≠ ',' ∧ c ≠ '"' ∧ c ≠ '\n' := by
  intro c hc
  rw [needsQuote, List.any_eq_false] at hq
  have := hq c hc
  simp only [Bool.or_eq_true, decide_eq_true_eq, not_or] at this
  tauto

/-- Folding one written field from a fresh field position accumulates
exactly the field's characters. -/
theorem foldl_csv_field (f : String) (recs : List (List String))
    (cur : List String) :
    (fieldChars f).foldl csvStep ⟨recs, cur, [], CsvMode.plain⟩ =
      ⟨recs, cur, f.data,
        if needsQuote f then CsvMode.qend else CsvMode.plain⟩ := by
  by_cases hq : needsQuote f
  · rw [fieldChars, if_pos hq, if_pos hq]
    rw [List.foldl_cons]
    have h1 : csvStep ⟨recs, cur, [], CsvMode.plain⟩ '"' =
        ⟨recs, cur, [], CsvMode.quoted⟩ := by
      simp [csvStep]
    rw [h1, List.foldl_append, foldl_csv_escape]
    simp [csvStep]
  · rw [fieldChars, if_neg hq, if_neg hq,
      foldl_csv_clean f.data
        (needsQuote_false_clean f (by simpa using hq)) recs cur []]
    simp

/-- A comma after a finished field flushes the field. -/
theorem csvStep_comma (recs : List (List String)) (cur : List String)
    (fld : List Char) (m : CsvMode)
    (hm : m = CsvMode.plain ∨ m = CsvMode.qend) :
    csvStep ⟨recs, cur, fld, m⟩ ',' =
      ⟨recs, cur ++ [String.mk fld], [], CsvMode.plain⟩ := by
  rcases hm with rfl | rfl <;> simp [csvStep]

/-- A newline after a finished field flushes the field and the record. -/
theorem csvStep_nl (recs : List (List String)) (cur : List String)
    (fld : List Char) (m : CsvMode)
    (hm : m = CsvMode.plain ∨ m = CsvMode.qend) :
    csvStep ⟨recs, cur, fld, m⟩ '\n' =
      ⟨recs ++ [cur ++ [String.mk fld]], [], [], CsvMode.plain⟩ := by
  rcases hm with rfl | rfl <;> simp [csvStep]

/-- Folding one written line appends exactly its record. -/
theorem foldl_csv_line (cells : List String) :
    cells ≠ [] → ∀ recs cur,
      (lineChars cells).foldl csvStep ⟨recs, cur, [], CsvMode.plain⟩ =
        ⟨recs ++ [cur ++ cells], [], [], CsvMode.plain⟩ := by
  induction cells with
  | nil => intro h; cases h rfl
  | cons f fs ih =>
    intro _ recs cur
    cases fs with
    | nil =>
      rw [show lineChars [f] = fieldChars f ++ ['\n'] from rfl,
        List.foldl_append, foldl_csv_field, List.foldl_cons, List.foldl_nil,
        csvStep_nl recs cur f.data _
          (by by_cases h : needsQuote f <;> simp [h]), mk_data]
    | cons g gs =>
      rw [show lineChars (f :: g :: gs) =
          fieldChars f ++ ',' :: lineChars (g :: gs) from rfl,
        List.foldl_append, foldl_csv_field, List.foldl_cons,
        csvStep_comma recs cur f.data _
          (by by_cases h : needsQuote f <;> simp [h]),
        mk_data, ih (by simp)]
      simp

/-- Folding a whole written file appends all its records. -/
theorem foldl_csv_lines (lines : List (List String))
    (h : ∀ l ∈ lines, l ≠ []) :
    ∀ recs, ((lines.map lineChars).flatten).foldl csvStep
        ⟨recs, [], [], CsvMode.plain⟩ =
      ⟨recs ++ lines, [], [], CsvMode.plain⟩ := by
  induction lines with
  | nil => intro recs; simp
  | cons l ls ih =>
    intro recs
    rw [List.map_cons, List.flatten_cons, List.foldl_append,
      foldl_csv_line l (h l (List.mem_cons_self _ _)) recs [],
      ih (fun x hx => h x (List.mem_cons_of_mem _ hx))]
    simp

/-- Re-parsing the written CSV text recovers the header and the cells of
every record, in order. -/
theorem parseCSV_to_csv (rows : List PlayerRecord) :
    parseCSV (to_csv rows) = exportColumns :: rows.map recordCells := by
  unfold parseCSV to_csv
  rw [data_mk, show csvInit = (⟨[], [], [], CsvMode.plain⟩ : CsvState)
    from rfl, foldl_csv_lines _ ?hne []]
  · simp [csvFinish]
  case hne =>
    intro l hl
    rcases List.mem_cons.mp hl with rfl | hl
    · simp [exportColumns]
    · rw [List.mem_map] at hl
      obtain ⟨r, -, rfl⟩ := hl
      simp [recordCells]

/-- Decoding the written cells of a record recovers its claim tuple. -/
theorem decodeRow_recordCells (r : PlayerRecord) :
    decodeRow (recordCells r) = some (tupleOf r) := by
  cases hR : r.Rating with
  | none =>
    simp [recordCells, decodeRow, ratingCell, hR, parseInt?_intStr, tupleOf]
  | some i =>
    simp [recordCells, decodeRow, ratingCell, hR, parseInt?_intStr, tupleOf,
      intStr_ne_empty i]

/-- Counterexample to C2 as stated: both exports carry a sixth `Category`
column (appended by the loading loop), so neither contains exactly the five
claimed columns. -/
theorem C2_columns_cex :
    parseCSV (to_csv []) =
      [["Rating", "Name", "Age", "Pos", "Club", "Category"]] ∧
    (to_excel ([] : List PlayerRecord)).1 =
      ["Rating", "Name", "Age", "Pos", "Club", "Category"] ∧
    (["Rating", "Name", "Age", "Pos", "Club", "Category"] : List String) ≠
      claimedColumns := by
  refine ⟨by decide, rfl, by decide⟩

/-- C2 (amended): for every FilteredView, the CSV and the spreadsheet
export both contain exactly the columns [Rating, Name, Age, Pos, Club,
Category], in that order, with exactly the filtered row set in order. -/
theorem C2_export_exact (rows : List PlayerRecord) :
    parseCSV (to_csv rows) = exportColumns :: rows.map recordCells ∧
    to_excel rows = (exportColumns, rows.map recordCells) :=
  ⟨parseCSV_to_csv rows, rfl⟩

/-- C9: exporting a FilteredView to CSV and re-parsing yields the same
(Rating, Name, Age, Pos, Club) tuples, in the same order. -/
theorem C9_csv_roundtrip (rows : List PlayerRecord) :
    (parseCSV (to_csv rows)).tail.map decodeRow =
      rows.map (fun r => some (tupleOf r)) := by
  rw [parseCSV_to_csv]
  simp [decodeRow_recordCells]
